import Mathlib

/-!
Verification of the GlyphGL glyph-atlas module (`glyph_atlas.h`, `glyph.h`)
against its natural-language specification.

The C code is shallowly embedded: C strings are modelled as lists of their
bytes before the null terminator (each byte non-zero and < 256 for a
well-formed C string; reading at or past the end yields the terminator 0),
machine `int` arithmetic is modelled with `Int`/`Nat` (all the values that
arise in the claims stay far from 2^31, so no wrap-around is modelled),
and the TrueType rasterizer (`glyph_truetype.h`, not part of the sources
under verification) is modelled as an abstract oracle structure supplying
glyph indices, bitmap metrics and advances.
-/

namespace GlyphGL

/-- A C string: the list of bytes strictly before the null terminator. -/
abbrev CStr := List Nat

/-- A C string is well formed when no byte is the terminator and every byte
fits in `unsigned char`. -/
def ValidCStr (s : CStr) : Prop := ∀ b ∈ s, 0 < b ∧ b < 256

instance (s : CStr) : Decidable (ValidCStr s) := by
  unfold ValidCStr; infer_instance

/-- `str[i]` for a C string: bytes past the end read the terminator `0`
(the embedding never reads past the terminator itself). -/
def getByte (s : CStr) (i : Nat) : Nat := s.getD i 0

/-- `strlen` of the modelled C string. -/
def strlen (s : CStr) : Nat := s.length

/-- Embedding of `glyph_atlas_utf8_decode` (glyph_atlas.h:93-125): the
lenient charset decoder. It checks only the lead byte's class; it never
validates continuation bytes and never checks bounds. Returns the decoded
codepoint together with the updated index. -/
def glyph_atlas_utf8_decode (s : CStr) (i : Nat) : Nat × Nat :=
  let c := getByte s i
  if c < 0x80 then
    (c, i + 1)
  else if c &&& 0xE0 = 0xC0 then
    let c2 := getByte s (i + 1)
    (((c &&& 0x1F) <<< 6) ||| (c2 &&& 0x3F), i + 2)
  else if c &&& 0xF0 = 0xE0 then
    let c2 := getByte s (i + 1)
    let c3 := getByte s (i + 2)
    (((c &&& 0x0F) <<< 12) ||| ((c2 &&& 0x3F) <<< 6) ||| (c3 &&& 0x3F), i + 3)
  else if c &&& 0xF8 = 0xF0 then
    let c2 := getByte s (i + 1)
    let c3 := getByte s (i + 2)
    let c4 := getByte s (i + 3)
    (((c &&& 0x07) <<< 18) ||| ((c2 &&& 0x3F) <<< 12) ||| ((c3 &&& 0x3F) <<< 6)
       ||| (c4 &&& 0x3F), i + 4)
  else
    (0xFFFD, i + 1)

/-- Embedding of `glyph_utf8_decode` (glyph.h:686-730): the strict renderer
decoder. It bounds-checks against `strlen` and validates continuation
bytes; on those error paths it returns without updating `*index`, which the
model reflects by returning the unchanged index. -/
def glyph_utf8_decode (s : CStr) (i : Nat) : Nat × Nat :=
  if strlen s ≤ i then
    (0, i)
  else
    let c := getByte s i
    if c < 0x80 then
      (c, i + 1)
    else if c &&& 0xE0 = 0xC0 then
      if strlen s ≤ i + 1 then (0xFFFD, i)
      else
        let c2 := getByte s (i + 1)
        if ¬ (c2 &&& 0xC0 = 0x80) then (0xFFFD, i)
        else (((c &&& 0x1F) <<< 6) ||| (c2 &&& 0x3F), i + 2)
    else if c &&& 0xF0 = 0xE0 then
      if strlen s ≤ i + 2 then (0xFFFD, i)
      else
        let c2 := getByte s (i + 1)
        let c3 := getByte s (i + 2)
        if ¬ (c2 &&& 0xC0 = 0x80 ∧ c3 &&& 0xC0 = 0x80) then (0xFFFD, i)
        else (((c &&& 0x0F) <<< 12) ||| ((c2 &&& 0x3F) <<< 6) ||| (c3 &&& 0x3F), i + 3)
    else if c &&& 0xF8 = 0xF0 then
      if strlen s ≤ i + 3 then (0xFFFD, i)
      else
        let c2 := getByte s (i + 1)
        let c3 := getByte s (i + 2)
        let c4 := getByte s (i + 3)
        if ¬ (c2 &&& 0xC0 = 0x80 ∧ c3 &&& 0xC0 = 0x80 ∧ c4 &&& 0xC0 = 0x80) then (0xFFFD, i)
        else (((c &&& 0x07) <<< 18) ||| ((c2 &&& 0x3F) <<< 12) ||| ((c3 &&& 0x3F) <<< 6)
                ||| (c4 &&& 0x3F), i + 4)
    else
      (0xFFFD, i + 1)

/-- Number of bytes of the UTF-8 sequence announced by lead byte `c`, or
`none` if `c` is not a valid lead byte. -/
def utf8_seq_len (c : Nat) : Option Nat :=
  if c < 0x80 then some 1
  else if c &&& 0xE0 = 0xC0 then some 2
  else if c &&& 0xF0 = 0xE0 then some 3
  else if c &&& 0xF8 = 0xF0 then some 4
  else none

/-- Position `i` of `s` holds a complete, structurally valid 1-4 byte UTF-8
sequence: a recognised lead byte, the whole sequence inside the string, and
every following byte a `10xxxxxx` continuation byte. -/
def valid_utf8_at (s : CStr) (i : Nat) : Bool :=
  match utf8_seq_len (getByte s i) with
  | none => false
  | some n =>
      decide (i + n ≤ strlen s) &&
      (List.range (n - 1)).all (fun k => getByte s (i + 1 + k) &&& 0xC0 == 0x80)

/-- Embedding of `glyph_atlas__next_pow2` (glyph_atlas.h:167-176). On the
domain of the claim (`1 ≤ v ≤ 2^30`) every intermediate C `int` value is
non-negative and below 2^31, so plain `Nat` arithmetic is a faithful model
(`v - 1` is `Nat` truncated subtraction, which agrees with the C decrement
for `v ≥ 1`). -/
def glyph_atlas__next_pow2 (v : Nat) : Nat :=
  let v0 := v - 1
  let v1 := v0 ||| (v0 >>> 1)
  let v2 := v1 ||| (v1 >>> 2)
  let v3 := v2 ||| (v2 >>> 4)
  let v4 := v3 ||| (v3 >>> 8)
  let v5 := v4 ||| (v4 >>> 16)
  v5 + 1

/-- One character entry of the atlas (`glyph_atlas_char_t`). All fields are
C `int`s. -/
structure glyph_atlas_char_t where
  codepoint : Int
  x : Int
  y : Int
  width : Int
  height : Int
  xoff : Int
  yoff : Int
  advance : Int
deriving Repr, DecidableEq

/-- The atlas image, pixel contents abstracted away (`glyph_image_t`). -/
structure glyph_image_t where
  width : Nat
  height : Nat
deriving Repr, DecidableEq

/-- The atlas (`glyph_atlas_t`). `chars = none` models a NULL `chars`
pointer. -/
structure glyph_atlas_t where
  image : glyph_image_t
  chars : Option (List glyph_atlas_char_t)
  num_chars : Int
  pixel_height : ℚ
deriving Repr, DecidableEq

/-- The character entries of an atlas behind an optional pointer, as a
list; a NULL atlas or NULL `chars` contributes no entries. -/
def atlas_entries (atlas : Option glyph_atlas_t) : List glyph_atlas_char_t :=
  match atlas with
  | none => []
  | some a => a.chars.getD []

/-- The linear scan of `glyph_atlas_find_char` (glyph_atlas.h:664-674) over
the entry array, returning the first entry whose codepoint matches. -/
def find_char_loop (cs : List glyph_atlas_char_t) (cp : Int) :
    Option glyph_atlas_char_t :=
  match cs with
  | [] => none
  | c :: rest => if c.codepoint = cp then some c else find_char_loop rest cp

/-- Embedding of `glyph_atlas_find_char`: NULL atlas or NULL `chars` give
NULL; otherwise the first matching entry of the array, or NULL. -/
def glyph_atlas_find_char (atlas : Option glyph_atlas_t) (cp : Int) :
    Option glyph_atlas_char_t :=
  match atlas with
  | none => none
  | some a =>
      match a.chars with
      | none => none
      | some cs => find_char_loop cs cp

/-- The charset encoding selector (`glyph_encoding_type_t`). -/
inductive glyph_encoding_type_t where
  | NONE
  | UTF8
  | ASCII
deriving DecidableEq, Repr

/-- C `(int)` cast of a rational value: truncation toward zero. -/
def c_int (q : ℚ) : Int := if 0 ≤ q then ⌊q⌋ else -⌊-q⌋

/-- Oracle for the TrueType module (`glyph_truetype.h` is a collaborator,
not among the verified sources): codepoint-to-glyph lookup, per-glyph
raster metrics (already in pixels, i.e. composed with the scale factor
where the C code multiplies by `scale`), bitmap/SDF allocation success, and
the scaled advance `(int)(glyph_ttf_get_glyph_advance(font,g) * scale)`. -/
structure glyph_font_t where
  find_glyph_index : Nat → Nat
  bitmap_present : Nat → Bool
  bitmap_width : Nat → Int
  bitmap_height : Nat → Int
  bitmap_xoff : Nat → Int
  bitmap_yoff : Nat → Int
  advance_scaled : Nat → Int
  sdf_present : Nat → Bool

/-- The temporary per-glyph record (`temp_glyph_t` in `glyph_atlas_create`).
`present = false` models a NULL `bitmap` pointer. The `is_default` flag
only steers which deallocator is used and is not modelled. -/
structure temp_glyph_t where
  present : Bool
  width : Int
  height : Int
  xoff : Int
  yoff : Int
  advance : Int
deriving Repr, DecidableEq

def tempZero : temp_glyph_t := ⟨false, 0, 0, 0, 0, 0⟩

def charZero : glyph_atlas_char_t := ⟨0, 0, 0, 0, 0, 0, 0, 0⟩

/-- The all-zero atlas `glyph_atlas_t atlas = {0}`. -/
def atlasZero : glyph_atlas_t := ⟨⟨0, 0⟩, none, 0, 0⟩

/-- Success/failure of the three checked `GLYPH_MALLOC` calls inside
`glyph_atlas_create` (character array, temporary glyph array, glyph-order
array). -/
structure alloc_oracle where
  chars_ok : Bool
  temp_ok : Bool
  order_ok : Bool

/-- The default printable-ASCII charset used when `charset == NULL`
(bytes 32..126; both encoding branches use the same literal). -/
def default_charset : CStr := List.range' 32 95

/-- The decoder always advances the index by 1 to 4 bytes. -/
theorem glyph_atlas_utf8_decode_advances (s : CStr) (i : Nat) :
    i < (glyph_atlas_utf8_decode s i).2 := by
  unfold glyph_atlas_utf8_decode
  dsimp only
  split_ifs <;> simp

/-- The codepoint list produced by the charset-counting loop of
`glyph_atlas_create` (glyph_atlas.h:230-237) and re-produced identically by
the phase-1 loop (line 280): repeated `glyph_atlas_utf8_decode` while the
index is below `strlen`. -/
def utf8_codepoints (s : CStr) (i : Nat) : List Nat :=
  if _h : i < strlen s then
    let r := glyph_atlas_utf8_decode s i
    r.1 :: utf8_codepoints s r.2
  else []
termination_by strlen s - i
decreasing_by
  have := glyph_atlas_utf8_decode_advances s i
  omega

/-- The ordered list of codepoints requested from a charset: UTF-8 decoded
when the encoding is UTF8, otherwise one codepoint per byte. -/
def charset_codepoints (char_type : glyph_encoding_type_t) (s : CStr) : List Nat :=
  if char_type = .UTF8 then utf8_codepoints s 0 else s

/-- The missing-glyph test of phase 1 (glyph_atlas.h:289):
`glyph_idx == 0 && codepoint != ' '`. -/
def is_missing (f : glyph_font_t) (cp : Nat) : Bool :=
  f.find_glyph_index cp == 0 && cp != 32

/-- Phase 1, per codepoint: the temporary glyph record. Missing glyphs get
the fallback record with NULL bitmap and advance `(int)(pixel_height*0.5f)`
(the multiplication by 0.5 is exact in binary floating point, so the
rational model is faithful); otherwise the rasterizer's output, with the
bitmap replaced by the SDF conversion result when `use_sdf` is set and the
bitmap was non-NULL. -/
def make_temp (f : glyph_font_t) (pixel_height : ℚ) (use_sdf : Bool)
    (cp : Nat) : temp_glyph_t :=
  if is_missing f cp then
    { present := false, width := 0, height := 0, xoff := 0, yoff := 0,
      advance := c_int (pixel_height * (1/2)) }
  else
    let g := f.find_glyph_index cp
    let p0 := f.bitmap_present g
    { present := if use_sdf && p0 then f.sdf_present g else p0,
      width := f.bitmap_width g, height := f.bitmap_height g,
      xoff := f.bitmap_xoff g, yoff := f.bitmap_yoff g,
      advance := f.advance_scaled g }

/-- Phase 1, per codepoint: the fields of `atlas.chars[i]` written during
phase 1. On the missing-glyph branch only `codepoint` is written
(glyph_atlas.h:298); otherwise `codepoint` and `advance`
(lines 332-333). The remaining fields keep the uninitialized malloc
contents `u`. -/
def make_char (u : glyph_atlas_char_t) (f : glyph_font_t) (pixel_height : ℚ)
    (use_sdf : Bool) (cp : Nat) : glyph_atlas_char_t :=
  if is_missing f cp then
    { u with codepoint := (cp : Int) }
  else
    { u with codepoint := (cp : Int),
             advance := (make_temp f pixel_height use_sdf cp).advance }

/-- Phase 1 over the codepoint list starting at entry index `i`: the
temporary glyph array, the partially-written character array, the
accumulated `total_width` (glyph widths plus 4, missing glyphs skipped by
`continue`) and the running `max_height`. -/
def phase1 (f : glyph_font_t) (pixel_height : ℚ) (use_sdf : Bool)
    (uninit : Nat → glyph_atlas_char_t) :
    List Nat → Nat → List temp_glyph_t × List glyph_atlas_char_t × Int × Int
  | [], _ => ([], [], 0, 0)
  | cp :: rest, i =>
      let t := make_temp f pixel_height use_sdf cp
      let ch := make_char (uninit i) f pixel_height use_sdf cp
      let r := phase1 f pixel_height use_sdf uninit rest (i + 1)
      (t :: r.1, ch :: r.2.1,
       if is_missing f cp then r.2.2.1 else r.2.2.1 + t.width + 4,
       if is_missing f cp then r.2.2.2 else max r.2.2.2 t.height)

/-- Sort key of the packing order: height of the `i`-th temporary glyph. -/
def heightKey (temps : List temp_glyph_t) (i : Nat) : Int :=
  (temps.getD i tempZero).height

/-- One comparison/swap of the bubble sort (glyph_atlas.h:362-367): compare
the keys of the elements at positions `j` and `j+1`, swap when the first is
strictly smaller (descending order). -/
def swap_adj (h : Nat → Int) : List Nat → Nat → List Nat
  | a :: b :: rest, 0 => if h a < h b then b :: a :: rest else a :: b :: rest
  | a :: rest, j + 1 => a :: swap_adj h rest j
  | l, _ => l

/-- The inner bubble-sort loop: `for (j = 0; j < m; j++)` of adjacent
compare-and-swap steps. -/
def innerLoop (h : Nat → Int) (l : List Nat) (m : Nat) : List Nat :=
  (List.range m).foldl (swap_adj h) l

/-- The full bubble sort of `glyph_atlas_create` (glyph_atlas.h:360-369):
outer loop `i < len-1`, inner loop bound `len-i-1`. -/
def bubble_sort (h : Nat → Int) (l : List Nat) : List Nat :=
  (List.range (l.length - 1)).foldl
    (fun acc i => innerLoop h acc (l.length - 1 - i)) l

/-- Padding between glyphs (glyph_atlas.h:372). -/
def padding : Int := 4

/-- Newton iteration for the integer square root, with explicit fuel (the
guess strictly decreases, so `n` steps always suffice). -/
def sqrt_iter (n : Nat) : Nat → Nat → Nat
  | 0, guess => guess
  | fuel + 1, guess =>
      let next := (guess + n / guess) / 2
      if next < guess then sqrt_iter n fuel next else guess

/-- Integer square root, the model of `(int)sqrtf(..)` on a non-negative
argument. -/
def c_sqrt (n : Nat) : Nat := if n ≤ 1 then n else sqrt_iter n n (n / 2)

/-- Initial atlas edge length (glyph_atlas.h:375-380):
`next_pow2((int)sqrtf(total_width*max_height) + 256)`, floored at the
2048 minimum. `sqrtf` is modelled by `c_sqrt` on the non-negative
product. -/
def atlas_initial_dim (total_width max_height : Int) : Nat :=
  max (glyph_atlas__next_pow2 (c_sqrt (total_width * max_height).toNat + 256)) 2048

/-- Packing-loop state: cursor, current row height, indices of the glyphs
placed in the current (not yet finalized) row, and the character array. -/
structure pack_state where
  pen_x : Int
  pen_y : Int
  row_height : Int
  current_row : List Nat
  chars : List glyph_atlas_char_t
deriving Repr

/-- In-place update of `chars[i]`. -/
def set_char (cs : List glyph_atlas_char_t) (i : Nat)
    (f : glyph_atlas_char_t → glyph_atlas_char_t) : List glyph_atlas_char_t :=
  cs.set i (f (cs.getD i charZero))

def tempGet (temps : List temp_glyph_t) (i : Nat) : temp_glyph_t :=
  temps.getD i tempZero

/-- Row finalization (glyph_atlas.h:419-450 and 499-531): compute
`max_yoff` over the row (starting from 0) and shift every row member's `y`
down by its `glyph_top = max_yoff - yoff`. The pixel blit itself writes
exactly the rectangle `[x, x+width) × [y+glyph_top, y+glyph_top+height)`
and is represented by the final entry coordinates. -/
def finalize_row (temps : List temp_glyph_t) (row : List Nat)
    (chars : List glyph_atlas_char_t) : List glyph_atlas_char_t :=
  let max_yoff := row.foldl (fun m idx => max m (tempGet temps idx).yoff) 0
  row.foldl
    (fun cs idx =>
      set_char cs idx (fun c => { c with y := c.y + (max_yoff - (tempGet temps idx).yoff) }))
    chars

/-- One packing pass over the (sorted) glyph order
(glyph_atlas.h:402-496). Returns `none` when some glyph fails the vertical
fit test `pen_y + height + padding > atlas_height`, which in the source
triggers the grow-and-restart path. -/
def pack_pass (temps : List temp_glyph_t) (W H : Int) :
    List Nat → pack_state → Option pack_state
  | [], st => some st
  | i :: rest, st =>
      let t := tempGet temps i
      if ¬t.present ∨ t.width = 0 then
        pack_pass temps W H rest
          { st with
            chars := set_char st.chars i (fun c =>
              { c with x := 0, y := 0, width := 0, height := 0, xoff := 0, yoff := 0 }) }
      else
        let st1 :=
          if W < st.pen_x + t.width + padding then
            { pen_x := padding,
              pen_y := st.pen_y + st.row_height + padding,
              row_height := 0,
              current_row := [],
              chars := finalize_row temps st.current_row st.chars }
          else st
        if H < st1.pen_y + t.height + padding then none
        else
          pack_pass temps W H rest
            { pen_x := st1.pen_x + t.width + 2 * padding,
              pen_y := st1.pen_y,
              row_height := max st1.row_height t.height,
              current_row := st1.current_row ++ [i],
              chars := set_char st1.chars i (fun c =>
                { c with x := st1.pen_x, y := st1.pen_y,
                         width := t.width, height := t.height,
                         xoff := t.xoff, yoff := t.yoff }) }

/-- One complete packing attempt at fixed atlas dimensions, including the
final-row finalization (glyph_atlas.h:499-531). -/
def pack_attempt (temps : List temp_glyph_t) (order : List Nat) (W H : Int)
    (chars0 : List glyph_atlas_char_t) : Option (List glyph_atlas_char_t) :=
  match pack_pass temps W H order ⟨padding, padding, 0, [], chars0⟩ with
  | none => none
  | some st =>
      some (if st.current_row = [] then st.chars
            else finalize_row temps st.current_row st.chars)

/-- The grow-and-restart loop (glyph_atlas.h:459-475): on a failed vertical
fit, double both dimensions and restart packing from the first sorted
glyph. A successful pass overwrites the position fields of every entry
(each index is either zeroed or placed-and-finalized), and no pass touches
`codepoint` or `advance`, so restarting from the phase-1 character array is
observationally identical to the source's restart on the mutated array.
The `fuel` parameter bounds the number of growth rounds; `none` models a
non-terminating loop, and the termination theorem shows sufficient fuel
always exists. -/
def pack_grow (temps : List temp_glyph_t) (order : List Nat)
    (chars0 : List glyph_atlas_char_t) :
    Nat → Int → Int → Option (List glyph_atlas_char_t × Int × Int)
  | 0, _, _ => none
  | fuel + 1, W, H =>
      match pack_attempt temps order W H chars0 with
      | some cs => some (cs, W, H)
      | none => pack_grow temps order chars0 fuel (2 * W) (2 * H)

/-- Greatest glyph height (clamped at 0), used for the fuel bound. -/
def max_temp_height (temps : List temp_glyph_t) : Int :=
  temps.foldl (fun a t => max a t.height) 0

/-- An amount of fuel provably sufficient for the grow-and-restart loop. -/
def pack_fuel (temps : List temp_glyph_t) (order : List Nat) : Nat :=
  (padding + (order.length : Int) * (max_temp_height temps + padding)
     + max_temp_height temps + padding).toNat + 1

/-- Embedding of `glyph_atlas_create` (glyph_atlas.h:201-556).
`font = none` models a failed `glyph_ttf_load_font_from_file`; `uninit i`
is the junk contents of the freshly malloc'd `atlas.chars[i]`. -/
def glyph_atlas_create (font : Option glyph_font_t) (pixel_height : ℚ)
    (charset : Option CStr) (char_type : glyph_encoding_type_t)
    (use_sdf : Bool) (alloc : alloc_oracle)
    (uninit : Nat → glyph_atlas_char_t) : glyph_atlas_t :=
  match font with
  | none => atlasZero
  | some f =>
      let cs := charset.getD default_charset
      let cps := charset_codepoints char_type cs
      let n := cps.length
      let failed : glyph_atlas_t :=
        { image := ⟨0, 0⟩, chars := none, num_chars := (n : Int),
          pixel_height := pixel_height }
      if ¬alloc.chars_ok then failed
      else if ¬alloc.temp_ok then failed
      else
        let r := phase1 f pixel_height use_sdf uninit cps 0
        let temps := r.1
        let chars1 := r.2.1
        if ¬alloc.order_ok then failed
        else
          let order := bubble_sort (heightKey temps) (List.range n)
          let dim := (atlas_initial_dim r.2.2.1 r.2.2.2 : Int)
          let packed := (pack_grow temps order chars1
              (pack_fuel temps order) dim dim).getD (chars1, dim, dim)
          { image := ⟨packed.2.1.toNat, packed.2.2.toNat⟩,
            chars := some packed.1,
            num_chars := (n : Int),
            pixel_height := pixel_height }

/-- Two entry rectangles `[x, x+width) × [y, y+height)` intersect. -/
def rects_overlap (a b : glyph_atlas_char_t) : Prop :=
  a.x < b.x + b.width ∧ b.x < a.x + a.width ∧
  a.y < b.y + b.height ∧ b.y < a.y + a.height

instance (a b : glyph_atlas_char_t) : Decidable (rects_overlap a b) := by
  unfold rects_overlap; infer_instance

/-- A font oracle exhibiting the packing-overlap failure: two mapped
glyphs, both 1500 pixels wide and 10 tall, the first with `yoff = -20`,
the second with `yoff = 0`. -/
def font_overlap_demo : glyph_font_t :=
  { find_glyph_index := fun cp => if cp = 65 then 1 else if cp = 66 then 2 else 0,
    bitmap_present := fun _ => true,
    bitmap_width := fun _ => 1500,
    bitmap_height := fun _ => 10,
    bitmap_xoff := fun _ => 0,
    bitmap_yoff := fun g => if g = 1 then -20 else 0,
    advance_scaled := fun _ => 30,
    sdf_present := fun _ => true }

/-- A font oracle that maps no codepoint to a glyph (every lookup yields
the `.notdef` index 0). -/
def font_unmapped_demo : glyph_font_t :=
  { find_glyph_index := fun _ => 0,
    bitmap_present := fun _ => true,
    bitmap_width := fun _ => 7,
    bitmap_height := fun _ => 9,
    bitmap_xoff := fun _ => 1,
    bitmap_yoff := fun _ => 2,
    advance_scaled := fun _ => 8,
    sdf_present := fun _ => true }

/-- The atlas built from `font_overlap_demo` over the charset "AB". -/
def atlas_overlap_demo : glyph_atlas_t :=
  glyph_atlas_create (some font_overlap_demo) 32 (some [65, 66])
    .ASCII false ⟨true, true, true⟩ (fun _ => charZero)

/-- C1: refuted on the code. For the charset "AB" (ASCII) and the font
`font_overlap_demo`, both returned entries have non-zero width, yet their
pixel rectangles overlap: the row-finalization baseline shift moves entry
'A' (yoff -20) down to `y = 24`, covering `[24, 34)`, while the second row
starts at `pen_y = 18` (the shift is counted neither in `row_height` nor in
the vertical fit test), so entry 'B' covers `[18, 28)`; the rectangles
intersect in `[4,1504) × [24,28)`. This contradicts the packing
invariant the code sets out to enforce (non-overlap via row bookkeeping
plus padding), so the code, not the claim, is at fault. -/
theorem C1_baseline_shift_overlaps_rows :
    (atlas_entries (some atlas_overlap_demo)).map (fun e => e.codepoint) = [65, 66] ∧
    ((atlas_entries (some atlas_overlap_demo)).getD 0 charZero).width ≠ 0 ∧
    ((atlas_entries (some atlas_overlap_demo)).getD 1 charZero).width ≠ 0 ∧
    atlas_overlap_demo.image.width = 2048 ∧
    atlas_overlap_demo.image.height = 2048 ∧
    ((atlas_entries (some atlas_overlap_demo)).getD 0 charZero).y = 24 ∧
    ((atlas_entries (some atlas_overlap_demo)).getD 1 charZero).y = 18 ∧
    rects_overlap ((atlas_entries (some atlas_overlap_demo)).getD 0 charZero)
      ((atlas_entries (some atlas_overlap_demo)).getD 1 charZero) := by
  decide

/-- The junk contents of the malloc'd character array in the C2 scenario. -/
def junk_char : glyph_atlas_char_t := { charZero with advance := 12345 }

/-- The atlas built from the all-unmapped font over the charset "A". -/
def atlas_unmapped_demo : glyph_atlas_t :=
  glyph_atlas_create (some font_unmapped_demo) 32 (some [65])
    .ASCII false ⟨true, true, true⟩ (fun _ => junk_char)

/-- C2: the code writes the fallback advance `(int)(pixel_height*0.5f)`
only into `temp_glyphs[i].advance`; the skip branch of the packing loop
zeroes every positional field of `atlas.chars[i]` but never writes
`advance`, so for an unmapped codepoint the returned entry's `advance` is
the uninitialized malloc contents (modelled by the `uninit` junk value
12345), not `(int)(32*0.5) = 16`. The entry does have width 0 and is
found by `glyph_atlas_find_char`, as the claim says. -/
theorem C2_missing_glyph_advance_uninitialized :
    ((atlas_entries (some atlas_unmapped_demo)).getD 0 charZero).codepoint = 65 ∧
    ((atlas_entries (some atlas_unmapped_demo)).getD 0 charZero).width = 0 ∧
    glyph_atlas_find_char (some atlas_unmapped_demo) 65 =
      some ((atlas_entries (some atlas_unmapped_demo)).getD 0 charZero) ∧
    c_int (32 * (1 / 2)) = 16 ∧
    ((atlas_entries (some atlas_unmapped_demo)).getD 0 charZero).advance = 12345 := by
  refine ⟨by decide, by decide, by decide, ?_, by decide⟩
  have h : (32 * (1 / 2) : ℚ) = 16 := by norm_num
  rw [c_int, h]
  norm_num

/-- C10: refuted on the code. At index 0 of the two-byte string
`"\xC2A"` (a 2-byte lead with an invalid continuation byte), the renderer
decoder returns the replacement character without advancing the index
(`*index` stays 0 although 0 < strlen = 2), so the decode loop of
`glyph_renderer_draw_text` spins forever on this input. -/
theorem C10_decode_does_not_advance_on_malformed :
    strlen [0xC2, 0x41] = 2 ∧
    glyph_utf8_decode [0xC2, 0x41] 0 = (0xFFFD, 0) := by
  decide

theorem glyph_atlas_find_char_eq_loop (atlas : Option glyph_atlas_t) (cp : Int) :
    glyph_atlas_find_char atlas cp = find_char_loop (atlas_entries atlas) cp := by
  cases atlas with
  | none => rfl
  | some a =>
      cases h : a.chars with
      | none => simp [glyph_atlas_find_char, atlas_entries, h, find_char_loop]
      | some cs => simp [glyph_atlas_find_char, atlas_entries, h]

theorem find_char_loop_none_iff (cs : List glyph_atlas_char_t) (cp : Int) :
    find_char_loop cs cp = none ↔ ∀ c ∈ cs, c.codepoint ≠ cp := by
  induction cs with
  | nil => simp [find_char_loop]
  | cons a rest ih =>
      by_cases h : a.codepoint = cp
      · simp [find_char_loop, h]
      · simp [find_char_loop, h, ih]

theorem find_char_loop_some_spec (cs : List glyph_atlas_char_t) (cp : Int)
    (c : glyph_atlas_char_t) (h : find_char_loop cs cp = some c) :
    ∃ i, cs[i]? = some c ∧ c.codepoint = cp ∧
      ∀ c' ∈ cs.take i, c'.codepoint ≠ cp := by
  induction cs with
  | nil => simp [find_char_loop] at h
  | cons a rest ih =>
      by_cases ha : a.codepoint = cp
      · rw [find_char_loop, if_pos ha] at h
        obtain rfl : a = c := by injection h
        exact ⟨0, by simp, ha, by simp⟩
      · rw [find_char_loop, if_neg ha] at h
        obtain ⟨i, h1, h2, h3⟩ := ih h
        refine ⟨i + 1, by simpa using h1, h2, ?_⟩
        intro c' hc'
        rw [List.take_succ_cons, List.mem_cons] at hc'
        rcases hc' with rfl | hc'
        · exact ha
        · exact h3 c' hc'

/-- C9: `glyph_atlas_find_char` returns NULL exactly when the atlas (or
its `chars` array) is NULL or no entry carries the requested codepoint;
otherwise it returns the matching entry of smallest index (every earlier
entry has a different codepoint). The loop reads only indices
`0 ≤ i < num_chars` of the entry array, which the model expresses by the
result being an element of the entry list at a valid position. -/
theorem C9_find_char_first_match (atlas : Option glyph_atlas_t) (cp : Int) :
    (glyph_atlas_find_char atlas cp = none ↔
       ∀ c ∈ atlas_entries atlas, c.codepoint ≠ cp) ∧
    (∀ c, glyph_atlas_find_char atlas cp = some c →
       ∃ i, (atlas_entries atlas)[i]? = some c ∧ c.codepoint = cp ∧
         ∀ c' ∈ (atlas_entries atlas).take i, c'.codepoint ≠ cp) := by
  rw [glyph_atlas_find_char_eq_loop]
  exact ⟨find_char_loop_none_iff _ cp,
         fun c h => find_char_loop_some_spec _ cp c h⟩

/-- C8: on any position holding a complete, structurally valid 1-4 byte
UTF-8 sequence the two decoders agree (same codepoint, same index
advance), while on the truncated sequence `"\xC2"` they differ: the atlas
decoder reads through the terminator and returns codepoint 0x80 with the
index advanced by 2, the renderer decoder returns 0xFFFD without moving
the index. -/
theorem C8_utf8_decoders_agree_on_valid (s : CStr) (i : Nat)
    (hv : valid_utf8_at s i = true) :
    glyph_atlas_utf8_decode s i = glyph_utf8_decode s i ∧
    glyph_atlas_utf8_decode [0xC2] 0 ≠ glyph_utf8_decode [0xC2] 0 := by
  refine ⟨?_, by decide⟩
  unfold valid_utf8_at utf8_seq_len at hv
  by_cases h1 : getByte s i < 0x80
  · rw [if_pos h1] at hv
    simp only [decide_eq_true_eq, List.all_eq_true, Bool.and_eq_true] at hv
    have hb : i + 1 ≤ strlen s := hv.1
    unfold glyph_atlas_utf8_decode glyph_utf8_decode
    dsimp only
    simp only [if_pos h1]
    rw [if_neg (show ¬ strlen s ≤ i by omega)]
  · rw [if_neg h1] at hv
    by_cases h2 : getByte s i &&& 0xE0 = 0xC0
    · rw [if_pos h2] at hv
      simp only [List.range_succ, List.range_zero, List.nil_append, List.all_append,
        List.all_cons, List.all_nil, Bool.and_eq_true, decide_eq_true_eq,
        Bool.and_true, beq_iff_eq] at hv
      obtain ⟨hb, hc⟩ := hv
      have hc2 : getByte s (i + 1) &&& 0xC0 = 0x80 := by simpa using hc
      unfold glyph_atlas_utf8_decode glyph_utf8_decode
      dsimp only
      simp only [if_neg h1, if_pos h2]
      rw [if_neg (show ¬ strlen s ≤ i by omega),
          if_neg (show ¬ strlen s ≤ i + 1 by omega),
          if_neg (show ¬ ¬ getByte s (i + 1) &&& 0xC0 = 0x80 by simp [hc2])]
    · rw [if_neg h2] at hv
      by_cases h3 : getByte s i &&& 0xF0 = 0xE0
      · rw [if_pos h3] at hv
        simp only [show (3 - 1 : Nat) = 2 from rfl, List.range_succ, List.range_zero,
          List.nil_append, List.all_append, List.all_cons, List.all_nil,
          Bool.and_eq_true, decide_eq_true_eq, Bool.and_true, beq_iff_eq] at hv
        obtain ⟨hb, hc⟩ := hv
        have hc2 : getByte s (i + 1) &&& 0xC0 = 0x80 := by
          have := hc.1; simpa using this
        have hc3 : getByte s (i + 2) &&& 0xC0 = 0x80 := by
          have := hc.2; simpa [Nat.add_assoc] using this
        unfold glyph_atlas_utf8_decode glyph_utf8_decode
        dsimp only
        simp only [if_neg h1, if_neg h2, if_pos h3]
        rw [if_neg (show ¬ strlen s ≤ i by omega),
            if_neg (show ¬ strlen s ≤ i + 2 by omega),
            if_neg (show ¬ ¬ (getByte s (i + 1) &&& 0xC0 = 0x80 ∧
              getByte s (i + 2) &&& 0xC0 = 0x80) by simp [hc2, hc3])]
      · rw [if_neg h3] at hv
        by_cases h4 : getByte s i &&& 0xF8 = 0xF0
        · rw [if_pos h4] at hv
          simp only [show (4 - 1 : Nat) = 3 from rfl, List.range_succ, List.range_zero,
            List.nil_append, List.all_append, List.all_cons, List.all_nil,
            Bool.and_eq_true, decide_eq_true_eq, Bool.and_true, beq_iff_eq] at hv
          obtain ⟨hb, hc⟩ := hv
          have hc2 : getByte s (i + 1) &&& 0xC0 = 0x80 := by
            have := hc.1.1; simpa using this
          have hc3 : getByte s (i + 2) &&& 0xC0 = 0x80 := by
            have := hc.1.2; simpa [Nat.add_assoc] using this
          have hc4 : getByte s (i + 3) &&& 0xC0 = 0x80 := by
            have := hc.2; simpa [Nat.add_assoc] using this
          unfold glyph_atlas_utf8_decode glyph_utf8_decode
          dsimp only
          simp only [if_neg h1, if_neg h2, if_neg h3, if_pos h4]
          rw [if_neg (show ¬ strlen s ≤ i by omega),
              if_neg (show ¬ strlen s ≤ i + 3 by omega),
              if_neg (show ¬ ¬ (getByte s (i + 1) &&& 0xC0 = 0x80 ∧
                getByte s (i + 2) &&& 0xC0 = 0x80 ∧
                getByte s (i + 3) &&& 0xC0 = 0x80) by simp [hc2, hc3, hc4])]
        · rw [if_neg h4] at hv
          simp at hv

/-- Witness for C8 at the concrete valid 2-byte sequence `"\xC3\xA9"`
("é") and at the divergent input `"\xC2"`. -/
theorem C8_utf8_decoders_witness :
    glyph_atlas_utf8_decode [0xC3, 0xA9] 0 = glyph_utf8_decode [0xC3, 0xA9] 0 ∧
    glyph_atlas_utf8_decode [0xC2] 0 ≠ glyph_utf8_decode [0xC2] 0 :=
  C8_utf8_decoders_agree_on_valid [0xC3, 0xA9] 0 (by decide)

/-- One or-with-shift step of the `next_pow2` bit smear. -/
def or_shift (m s : Nat) : Nat := m ||| (m >>> s)

/-- The five-step bit smear of `glyph_atlas__next_pow2` applied to `v-1`. -/
def smear (m : Nat) : Nat :=
  or_shift (or_shift (or_shift (or_shift (or_shift m 1) 2) 4) 8) 16

theorem next_pow2_eq_smear (v : Nat) :
    glyph_atlas__next_pow2 v = smear (v - 1) + 1 := rfl

/-- If every bit of `m` is the disjunction of the bits of `n` in the window
of size `s` above it, then the same holds for `m ||| m >>> s` with window
`2*s`. -/
theorem or_shift_window (n m s : Nat)
    (hm : ∀ i, m.testBit i = true ↔ ∃ o, o < s ∧ n.testBit (i + o) = true) :
    ∀ i, (or_shift m s).testBit i = true ↔
      ∃ o, o < 2 * s ∧ n.testBit (i + o) = true := by
  intro i
  rw [or_shift, Nat.testBit_or, Nat.testBit_shiftRight, Bool.or_eq_true,
    hm i, hm (s + i)]
  constructor
  · rintro (⟨o, ho, hb⟩ | ⟨o, ho, hb⟩)
    · exact ⟨o, by omega, hb⟩
    · refine ⟨s + o, by omega, ?_⟩
      have h : i + (s + o) = s + i + o := by omega
      rw [h]; exact hb
  · rintro ⟨o, ho, hb⟩
    by_cases h : o < s
    · exact Or.inl ⟨o, h, hb⟩
    · refine Or.inr ⟨o - s, by omega, ?_⟩
      have h2 : s + i + (o - s) = i + o := by omega
      rw [h2]; exact hb

/-- Bit `i` of `smear n` is the disjunction of bits `i..i+31` of `n`. -/
theorem smear_window (n : Nat) :
    ∀ i, (smear n).testBit i = true ↔ ∃ o, o < 32 ∧ n.testBit (i + o) = true := by
  have b0 : ∀ i, n.testBit i = true ↔ ∃ o, o < 1 ∧ n.testBit (i + o) = true := by
    intro i
    constructor
    · intro h; exact ⟨0, by omega, by simpa using h⟩
    · rintro ⟨o, ho, hb⟩
      obtain rfl : o = 0 := by omega
      simpa using hb
  have t1 := or_shift_window n n 1 b0
  have t2 := or_shift_window n _ 2 t1
  have t3 := or_shift_window n _ 4 t2
  have t4 := or_shift_window n _ 8 t3
  have t5 := or_shift_window n _ 16 t4
  exact t5

/-- The highest bit of a non-zero number, at position `size - 1`, is set. -/
theorem testBit_size_pred (n : Nat) (hn : n ≠ 0) :
    n.testBit (n.size - 1) = true := by
  obtain ⟨j, hj, hmax⟩ := Nat.exists_most_significant_bit hn
  have h1 : 2 ^ j ≤ n := Nat.testBit_implies_ge hj
  have h2 : n < 2 ^ (j + 1) := by
    apply Nat.lt_of_testBit (j + 1)
    · exact hmax (j + 1) (by omega)
    · exact Nat.testBit_two_pow_self
    · intro k hk
      rw [hmax k (by omega), Nat.testBit_two_pow_of_ne (by omega : j + 1 ≠ k)]
  have hsize : n.size = j + 1 :=
    Nat.le_antisymm (Nat.size_le.mpr h2) (Nat.lt_size.mpr h1)
  rw [hsize]
  simpa using hj

/-- For `n < 2^31` the smear fills all bits below the highest set bit:
`smear n = 2^(size n) - 1`. -/
theorem smear_eq_two_pow_size_sub_one (n : Nat) (h : n < 2 ^ 31) :
    smear n = 2 ^ n.size - 1 := by
  apply Nat.eq_of_testBit_eq
  intro i
  rw [Nat.testBit_two_pow_sub_one]
  by_cases hi : i < n.size
  · simp only [hi, decide_True]
    rw [smear_window]
    have hn : n ≠ 0 := by
      intro h0
      rw [h0, Nat.size_zero] at hi
      omega
    have hs31 : n.size ≤ 31 := Nat.size_le.mpr h
    refine ⟨n.size - 1 - i, by omega, ?_⟩
    have he : i + (n.size - 1 - i) = n.size - 1 := by omega
    rw [he]
    exact testBit_size_pred n hn
  · simp only [hi, decide_False]
    by_contra hc
    rw [Bool.not_eq_false, smear_window] at hc
    obtain ⟨o, ho, hb⟩ := hc
    have hlt : n < 2 ^ (i + o) := by
      calc n < 2 ^ n.size := Nat.lt_size_self n
        _ ≤ 2 ^ (i + o) := Nat.pow_le_pow_right (by omega) (by omega)
    rw [Nat.testBit_lt_two_pow hlt] at hb
    exact absurd hb (by simp)

/-- C6: on `[1, 2^30]`, `glyph_atlas__next_pow2 v` is a power of two, is at
least `v`, and is below every power of two that is at least `v` — i.e. it
is the smallest power of two ≥ v — and the three concrete values of the
claim hold. -/
theorem C6_next_pow2_smallest (v : Nat) (h1 : 1 ≤ v) (h2 : v ≤ 2 ^ 30) :
    (∃ k, glyph_atlas__next_pow2 v = 2 ^ k) ∧
    v ≤ glyph_atlas__next_pow2 v ∧
    (∀ m, v ≤ 2 ^ m → glyph_atlas__next_pow2 v ≤ 2 ^ m) ∧
    glyph_atlas__next_pow2 1 = 1 ∧
    glyph_atlas__next_pow2 2048 = 2048 ∧
    glyph_atlas__next_pow2 2049 = 4096 := by
  have hlt : v - 1 < 2 ^ 31 := by
    have : (2 : Nat) ^ 30 < 2 ^ 31 := by norm_num
    omega
  have he : glyph_atlas__next_pow2 v = 2 ^ (v - 1).size := by
    rw [next_pow2_eq_smear, smear_eq_two_pow_size_sub_one (v - 1) hlt]
    have hp : 1 ≤ 2 ^ (v - 1).size := Nat.one_le_two_pow
    omega
  refine ⟨⟨_, he⟩, ?_, ?_, by decide, by decide, by decide⟩
  · rw [he]
    have := Nat.lt_size_self (v - 1)
    omega
  · intro m hm
    rw [he]
    apply Nat.pow_le_pow_right (by omega)
    apply Nat.size_le.mpr
    omega

/-- Witness for C6 at `v = 5`: the next power of two is between 5 and 8. -/
theorem C6_next_pow2_witness :
    5 ≤ glyph_atlas__next_pow2 5 ∧ glyph_atlas__next_pow2 5 ≤ 2 ^ 3 :=
  ⟨(C6_next_pow2_smallest 5 (by decide) (by decide)).2.1,
   (C6_next_pow2_smallest 5 (by decide) (by decide)).2.2.1 3 (by decide)⟩

/-- The distinct-codepoint count of a charset, written from the spec's
words ("num_chars equals the distinct-codepoint count of the requested
charset") for comparison against the code's behaviour. -/
def distinct_codepoint_count (ct : glyph_encoding_type_t) (s : CStr) : Nat :=
  (charset_codepoints ct s).dedup.length

/-- C3 counterexample: for the ASCII charset "AA" the code returns
`num_chars = 2` (one entry per decoded byte, duplicates kept — the
counting loop of glyph_atlas.h:228-241 never deduplicates), while the
distinct-codepoint count is 1. -/
theorem C3_counterexample_duplicate_charset :
    (glyph_atlas_create (some font_unmapped_demo) 32 (some [65, 65]) .ASCII
        false ⟨true, true, true⟩ (fun _ => charZero)).num_chars = 2 ∧
    distinct_codepoint_count .ASCII [65, 65] = 1 ∧
    (glyph_atlas_create (some font_unmapped_demo) 32 (some [65, 65]) .ASCII
        false ⟨true, true, true⟩ (fun _ => charZero)).num_chars ≠
      (distinct_codepoint_count .ASCII [65, 65] : Int) := by
  refine ⟨by decide, ?_, by decide⟩
  decide

/-- C3 amended: `num_chars` equals the TOTAL number of codepoints decoded
from the charset (UTF-8 multi-byte decode when the encoding is UTF8,
otherwise one codepoint per byte), with duplicates counted once per
occurrence. -/
theorem C3_num_chars_is_decoded_count (f : glyph_font_t) (ph : ℚ)
    (charset : CStr) (ct : glyph_encoding_type_t) (use_sdf : Bool)
    (alloc : alloc_oracle) (uninit : Nat → glyph_atlas_char_t) :
    (glyph_atlas_create (some f) ph (some charset) ct use_sdf alloc
        uninit).num_chars =
      ((charset_codepoints ct charset).length : Int) := by
  rw [glyph_atlas_create]
  dsimp only [Option.getD]
  split_ifs <;> rfl

/-- C4 counterexample: when the allocation of the character array fails on
the charset "AB", the returned atlas has `chars = NULL` and an empty image
but `num_chars = 2`, not 0 (`atlas.num_chars = charset_len` is assigned
before the malloc is checked, glyph_atlas.h:244-250), so the result is not
the all-zero sentinel the claim describes. -/
theorem C4_counterexample_alloc_failure_num_chars :
    (glyph_atlas_create (some font_unmapped_demo) 32 (some [65, 66]) .ASCII
        false ⟨false, true, true⟩ (fun _ => charZero)).chars = none ∧
    (glyph_atlas_create (some font_unmapped_demo) 32 (some [65, 66]) .ASCII
        false ⟨false, true, true⟩ (fun _ => charZero)).num_chars = 2 := by
  decide

/-- Every allocation-failure path of `glyph_atlas_create` returns the
partially-written failure value: NULL chars, empty image, `num_chars`
already set to the decoded charset length, `pixel_height` already set. -/
theorem glyph_atlas_create_alloc_fail (f : glyph_font_t) (ph : ℚ)
    (charset : Option CStr) (ct : glyph_encoding_type_t) (use_sdf : Bool)
    (alloc : alloc_oracle) (uninit : Nat → glyph_atlas_char_t)
    (halloc : ¬alloc.chars_ok ∨ ¬alloc.temp_ok ∨ ¬alloc.order_ok) :
    glyph_atlas_create (some f) ph charset ct use_sdf alloc uninit =
      { image := ⟨0, 0⟩, chars := none,
        num_chars :=
          ((charset_codepoints ct (charset.getD default_charset)).length : Int),
        pixel_height := ph } := by
  simp only [glyph_atlas_create]
  by_cases h1 : alloc.chars_ok
  · by_cases h2 : alloc.temp_ok
    · have h3 : ¬alloc.order_ok = true := by tauto
      rw [if_neg (by simpa using h1), if_neg (by simpa using h2), if_pos h3]
    · rw [if_neg (by simpa using h1), if_pos h2]
  · rw [if_pos h1]

/-- C4 amended: on every fatal failure path the returned atlas has
`chars = NULL` and an empty image — so failure is indeed distinguishable
solely from the image/character data — but the atlas is all-zero only on
the font-load failure path; on the three allocation-failure paths
`num_chars` has already been set to the decoded charset length (and
`pixel_height` to the requested size). -/
theorem C4_failure_paths_sentinel (font : Option glyph_font_t) (ph : ℚ)
    (charset : Option CStr) (ct : glyph_encoding_type_t) (use_sdf : Bool)
    (alloc : alloc_oracle) (uninit : Nat → glyph_atlas_char_t)
    (hfail : font = none ∨ ¬alloc.chars_ok ∨ ¬alloc.temp_ok ∨ ¬alloc.order_ok) :
    (glyph_atlas_create font ph charset ct use_sdf alloc uninit).chars = none ∧
    (glyph_atlas_create font ph charset ct use_sdf alloc uninit).image = ⟨0, 0⟩ ∧
    (font = none →
      glyph_atlas_create font ph charset ct use_sdf alloc uninit = atlasZero) ∧
    (∀ f, font = some f →
      (glyph_atlas_create font ph charset ct use_sdf alloc uninit).num_chars =
        ((charset_codepoints ct (charset.getD default_charset)).length : Int) ∧
      (glyph_atlas_create font ph charset ct use_sdf alloc uninit).pixel_height
        = ph) := by
  cases font with
  | none =>
      refine ⟨rfl, rfl, fun _ => rfl, fun f hf => Option.noConfusion hf⟩
  | some f =>
      have halloc : ¬alloc.chars_ok ∨ ¬alloc.temp_ok ∨ ¬alloc.order_ok := by
        rcases hfail with h | h
        · cases h
        · exact h
      rw [glyph_atlas_create_alloc_fail f ph charset ct use_sdf alloc uninit halloc]
      refine ⟨rfl, rfl, fun hn => Option.noConfusion hn, fun g hg => ⟨rfl, rfl⟩⟩

/-- Witness for C4 at two concrete failure paths: font-load failure gives
the all-zero atlas; a glyph-order allocation failure on the charset "AB"
gives NULL chars, empty image and `num_chars = 2`. -/
theorem C4_failure_paths_witness :
    glyph_atlas_create none 32 (some [65, 66]) .ASCII false
        ⟨true, true, true⟩ (fun _ => charZero) = atlasZero ∧
    (glyph_atlas_create (some font_unmapped_demo) 32 (some [65, 66]) .ASCII
        false ⟨true, true, false⟩ (fun _ => charZero)).chars = none ∧
    (glyph_atlas_create (some font_unmapped_demo) 32 (some [65, 66]) .ASCII
        false ⟨true, true, false⟩ (fun _ => charZero)).num_chars = 2 := by
  refine ⟨(C4_failure_paths_sentinel none 32 (some [65, 66]) .ASCII false
      ⟨true, true, true⟩ (fun _ => charZero) (Or.inl rfl)).2.2.1 rfl, ?_, ?_⟩
  · exact (C4_failure_paths_sentinel (some font_unmapped_demo) 32
      (some [65, 66]) .ASCII false ⟨true, true, false⟩ (fun _ => charZero)
      (Or.inr (Or.inr (Or.inr (by decide))))).1
  · have h := (C4_failure_paths_sentinel (some font_unmapped_demo) 32
      (some [65, 66]) .ASCII false ⟨true, true, false⟩ (fun _ => charZero)
      (Or.inr (Or.inr (Or.inr (by decide))))).2.2.2 font_unmapped_demo rfl
    rw [h.1]
    decide

/-! ### The bubble sort of phase 2 (claim C7) -/

/-- Functional form of one inner-loop pass: at most `n` adjacent
compare-and-swap steps walking left to right, carrying the running
minimum-height element rightward. -/
def onePassN (h : Nat → Int) : Nat → List Nat → List Nat
  | 0, l => l
  | _ + 1, [] => []
  | _ + 1, [a] => [a]
  | n + 1, a :: b :: rest =>
      if h a < h b then b :: onePassN h n (a :: rest)
      else a :: onePassN h n (b :: rest)

theorem swap_adj_nil (h : Nat → Int) (j : Nat) : swap_adj h [] j = [] := by
  cases j <;> rfl

theorem foldl_swap_adj_nil (h : Nat → Int) (js : List Nat) :
    js.foldl (swap_adj h) [] = [] := by
  induction js with
  | nil => rfl
  | cons j js ih => simp [List.foldl_cons, swap_adj_nil, ih]

theorem swap_adj_cons_succ (h : Nat → Int) (c : Nat) (t : List Nat) (j : Nat) :
    swap_adj h (c :: t) (j + 1) = c :: swap_adj h t j := by
  cases t <;> rfl

theorem foldl_swap_adj_succ (h : Nat → Int) (js : List Nat) :
    ∀ (c : Nat) (t : List Nat),
      js.foldl (fun acc j => swap_adj h acc (j + 1)) (c :: t) =
        c :: js.foldl (swap_adj h) t := by
  induction js with
  | nil => intro c t; rfl
  | cons j js ih =>
      intro c t
      simp only [List.foldl_cons]
      rw [swap_adj_cons_succ, ih]

theorem innerLoop_zero (h : Nat → Int) (l : List Nat) : innerLoop h l 0 = l := rfl

theorem innerLoop_succ_nil (h : Nat → Int) (m : Nat) :
    innerLoop h [] (m + 1) = [] := by
  rw [innerLoop]
  exact foldl_swap_adj_nil h _

theorem innerLoop_succ_single (h : Nat → Int) (a m : Nat) :
    innerLoop h [a] (m + 1) = [a] := by
  rw [innerLoop, List.range_succ_eq_map, List.foldl_cons, List.foldl_map]
  simp only [Nat.succ_eq_add_one]
  rw [show swap_adj h [a] 0 = [a] from rfl, foldl_swap_adj_succ,
    foldl_swap_adj_nil]

theorem innerLoop_succ_cons (h : Nat → Int) (a b m : Nat) (rest : List Nat) :
    innerLoop h (a :: b :: rest) (m + 1) =
      if h a < h b then b :: innerLoop h (a :: rest) m
      else a :: innerLoop h (b :: rest) m := by
  rw [innerLoop, List.range_succ_eq_map, List.foldl_cons, List.foldl_map]
  simp only [Nat.succ_eq_add_one]
  rw [show swap_adj h (a :: b :: rest) 0 =
        if h a < h b then b :: a :: rest else a :: b :: rest from rfl]
  by_cases hab : h a < h b
  · rw [if_pos hab, if_pos hab, foldl_swap_adj_succ]
    rfl
  · rw [if_neg hab, if_neg hab, foldl_swap_adj_succ]
    rfl

theorem innerLoop_eq_onePassN (h : Nat → Int) :
    ∀ (m : Nat) (l : List Nat), innerLoop h l m = onePassN h m l := by
  intro m
  induction m with
  | zero => intro l; rfl
  | succ m ih =>
      intro l
      match l with
      | [] => rw [innerLoop_succ_nil]; rfl
      | [a] => rw [innerLoop_succ_single]; rfl
      | a :: b :: rest =>
          rw [innerLoop_succ_cons, onePassN]
          by_cases hab : h a < h b
          · rw [if_pos hab, if_pos hab, ih]
          · rw [if_neg hab, if_neg hab, ih]

theorem onePassN_length (h : Nat → Int) :
    ∀ (n : Nat) (l : List Nat), (onePassN h n l).length = l.length := by
  intro n
  induction n with
  | zero => intro l; rfl
  | succ n ih =>
      intro l
      match l with
      | [] => rfl
      | [a] => rfl
      | a :: b :: rest =>
          rw [onePassN]
          by_cases hab : h a < h b
          · rw [if_pos hab]; simp [ih]
          · rw [if_neg hab]; simp [ih]

theorem onePassN_perm (h : Nat → Int) :
    ∀ (n : Nat) (l : List Nat), (onePassN h n l).Perm l := by
  intro n
  induction n with
  | zero => intro l; exact List.Perm.refl l
  | succ n ih =>
      intro l
      match l with
      | [] => exact List.Perm.refl _
      | [a] => exact List.Perm.refl _
      | a :: b :: rest =>
          rw [onePassN]
          by_cases hab : h a < h b
          · rw [if_pos hab]
            exact ((ih (a :: rest)).cons b).trans (List.Perm.swap a b rest)
          · rw [if_neg hab]
            exact (ih (b :: rest)).cons a

theorem onePassN_drop (h : Nat → Int) :
    ∀ (n : Nat) (l : List Nat), (onePassN h n l).drop (n + 1) = l.drop (n + 1) := by
  intro n
  induction n with
  | zero => intro l; rfl
  | succ n ih =>
      intro l
      match l with
      | [] => rfl
      | [a] => simp [onePassN]
      | a :: b :: rest =>
          rw [onePassN]
          by_cases hab : h a < h b
          · rw [if_pos hab, List.drop_succ_cons, ih]
            rfl
          · rw [if_neg hab, List.drop_succ_cons, ih]
            rfl

theorem onePassN_filter (h : Nat → Int) (v : Int) :
    ∀ (n : Nat) (l : List Nat),
      (onePassN h n l).filter (fun x => h x == v) =
        l.filter (fun x => h x == v) := by
  intro n
  induction n with
  | zero => intro l; rfl
  | succ n ih =>
      intro l
      match l with
      | [] => rfl
      | [a] => rfl
      | a :: b :: rest =>
          rw [onePassN]
          by_cases hab : h a < h b
          · rw [if_pos hab]
            by_cases hbv : h b = v
            · have hav : ¬ h a = v := by omega
              simp [List.filter_cons, hbv, hav, ih]
            · by_cases hav : h a = v
              · simp [List.filter_cons, hbv, hav, ih]
              · simp [List.filter_cons, hbv, hav, ih]
          · rw [if_neg hab]
            simp [List.filter_cons, ih]

/-- After `onePassN h n`, the element at position `n` has minimal key among
the first `n+1` elements of the input. -/
theorem onePassN_min (h : Nat → Int) :
    ∀ (n : Nat) (l : List Nat), n < l.length →
      ∀ x ∈ l.take (n + 1), h ((onePassN h n l).getD n 0) ≤ h x := by
  intro n
  induction n with
  | zero =>
      intro l hl x hx
      match l with
      | a :: t =>
          simp only [List.take_succ_cons, List.take_zero, List.mem_singleton] at hx
          subst hx
          simp [onePassN]
  | succ n ih =>
      intro l hl x hx
      match l with
      | [] => simp at hl
      | [a] => simp at hl
      | a :: b :: rest =>
          rw [onePassN]
          by_cases hab : h a < h b
          · rw [if_pos hab]
            have hlen : n < (a :: rest).length := by
              simp at hl ⊢; omega
            have hmin := ih (a :: rest) hlen
            have hgd : ((b :: onePassN h n (a :: rest)).getD (n + 1) 0) =
                (onePassN h n (a :: rest)).getD n 0 := by
              simp [List.getD_cons_succ]
            rw [hgd]
            simp only [List.take_succ_cons, List.mem_cons] at hx
            rcases hx with rfl | rfl | hx
            · exact hmin x (by simp)
            · have ha : h ((onePassN h n (a :: rest)).getD n 0) ≤ h a :=
                hmin a (by simp)
              omega
            · exact hmin x (by
                rw [List.take_succ_cons]; exact List.mem_cons_of_mem a hx)
          · rw [if_neg hab]
            have hlen : n < (b :: rest).length := by
              simp at hl ⊢; omega
            have hmin := ih (b :: rest) hlen
            have hgd : ((a :: onePassN h n (b :: rest)).getD (n + 1) 0) =
                (onePassN h n (b :: rest)).getD n 0 := by
              simp [List.getD_cons_succ]
            rw [hgd]
            simp only [List.take_succ_cons, List.mem_cons] at hx
            rcases hx with rfl | rfl | hx
            · have hb : h ((onePassN h n (b :: rest)).getD n 0) ≤ h b :=
                hmin b (by simp)
              omega
            · exact hmin x (by simp)
            · exact hmin x (by
                rw [List.take_succ_cons]; exact List.mem_cons_of_mem b hx)

/-- The outer bubble-sort loop as iterated passes with shrinking bounds:
bounds `m, m-1, ..., 1`. -/
def passes (h : Nat → Int) : Nat → List Nat → List Nat
  | 0, l => l
  | m + 1, l => passes h m (onePassN h (m + 1) l)

theorem bubble_sort_eq_passes (h : Nat → Int) (l : List Nat) :
    bubble_sort h l = passes h (l.length - 1) l := by
  have key : ∀ (c : Nat) (acc : List Nat),
      (List.range c).foldl (fun acc i => innerLoop h acc (c - i)) acc =
        passes h c acc := by
    intro c
    induction c with
    | zero => intro acc; rfl
    | succ c ih =>
        intro acc
        rw [List.range_succ_eq_map, List.foldl_cons, List.foldl_map]
        have harg : (fun (a : List Nat) (i : Nat) =>
              innerLoop h a (c + 1 - i.succ)) = fun a i => innerLoop h a (c - i) := by
          funext a i
          rw [Nat.succ_sub_succ]
        rw [harg, ih, Nat.sub_zero, innerLoop_eq_onePassN]
        rfl
  rw [bubble_sort]
  exact key (l.length - 1) l

theorem passes_length (h : Nat → Int) :
    ∀ (m : Nat) (l : List Nat), (passes h m l).length = l.length := by
  intro m
  induction m with
  | zero => intro l; rfl
  | succ m ih =>
      intro l
      rw [passes, ih, onePassN_length]

theorem passes_perm (h : Nat → Int) :
    ∀ (m : Nat) (l : List Nat), (passes h m l).Perm l := by
  intro m
  induction m with
  | zero => intro l; exact List.Perm.refl l
  | succ m ih =>
      intro l
      exact (ih (onePassN h (m + 1) l)).trans (onePassN_perm h (m + 1) l)

theorem passes_filter (h : Nat → Int) (v : Int) :
    ∀ (m : Nat) (l : List Nat),
      (passes h m l).filter (fun x => h x == v) =
        l.filter (fun x => h x == v) := by
  intro m
  induction m with
  | zero => intro l; rfl
  | succ m ih =>
      intro l
      rw [passes, ih, onePassN_filter]

/-- Core invariant argument: if the suffix past position `m` is already
sorted (descending by key) and lies below every element of the prefix,
then running the passes with bounds `m, ..., 1` sorts the whole list. -/
theorem passes_sorted (h : Nat → Int) :
    ∀ (m : Nat) (l : List Nat), m + 1 ≤ l.length →
      List.Pairwise (fun a b => h b ≤ h a) (l.drop (m + 1)) →
      (∀ x ∈ l.take (m + 1), ∀ y ∈ l.drop (m + 1), h y ≤ h x) →
      List.Pairwise (fun a b => h b ≤ h a) (passes h m l) := by
  intro m
  induction m with
  | zero =>
      intro l hlen hsorted hbound
      cases l with
      | nil => simp at hlen
      | cons a t =>
          show List.Pairwise _ (a :: t)
          rw [List.pairwise_cons]
          constructor
          · intro y hy
            exact hbound a (by simp) y (by simpa using hy)
          · simpa using hsorted
  | succ m ih =>
      intro l hlen hsorted hbound
      show List.Pairwise _ (passes h m (onePassN h (m + 1) l))
      have hlen' : (onePassN h (m + 1) l).length = l.length :=
        onePassN_length h (m + 1) l
      have hperm : (onePassN h (m + 1) l).Perm l := onePassN_perm h (m + 1) l
      have hdrop : (onePassN h (m + 1) l).drop (m + 2) = l.drop (m + 2) :=
        onePassN_drop h (m + 1) l
      have hminel := onePassN_min h (m + 1) l (by omega)
      have hm1 : m + 1 < (onePassN h (m + 1) l).length := by omega
      have hdropsucc : (onePassN h (m + 1) l).drop (m + 1) =
          (onePassN h (m + 1) l).getD (m + 1) 0 :: l.drop (m + 2) := by
        rw [List.drop_eq_getElem_cons hm1, hdrop, List.getD_eq_getElem _ _ hm1]
      have htakeperm : ((onePassN h (m + 1) l).take (m + 2)).Perm
          (l.take (m + 2)) := by
        have h1 : List.Perm
            ((onePassN h (m + 1) l).take (m + 2) ++
              (onePassN h (m + 1) l).drop (m + 2))
            (l.take (m + 2) ++ l.drop (m + 2)) := by
          rw [List.take_append_drop, List.take_append_drop]
          exact hperm
        rw [hdrop] at h1
        exact (List.perm_append_right_iff _).mp h1
      have hemem : (onePassN h (m + 1) l).getD (m + 1) 0 ∈ l.take (m + 2) := by
        apply htakeperm.mem_iff.mp
        have h2 : m + 1 < ((onePassN h (m + 1) l).take (m + 2)).length := by
          rw [List.length_take]
          omega
        have h3 : ((onePassN h (m + 1) l).take (m + 2)).get ⟨m + 1, h2⟩ =
            (onePassN h (m + 1) l).getD (m + 1) 0 := by
          rw [List.get_eq_getElem, List.getElem_take, List.getD_eq_getElem _ _ hm1]
        rw [← h3]
        exact List.get_mem _ _ _
      apply ih (onePassN h (m + 1) l) (by omega)
      · rw [hdropsucc, List.pairwise_cons]
        constructor
        · intro y hy
          exact hbound _ hemem y hy
        · exact hsorted
      · intro x hx y hy
        have hx2 : x ∈ l.take (m + 2) := by
          apply htakeperm.mem_iff.mp
          have : x ∈ (onePassN h (m + 1) l).take (m + 2) := by
            have hxx : x ∈ ((onePassN h (m + 1) l).take (m + 2)).take (m + 1) := by
              rw [List.take_take]
              simpa using hx
            exact List.mem_of_mem_take hxx
          exact this
        rw [hdropsucc] at hy
        rcases List.mem_cons.mp hy with rfl | hy2
        · exact hminel x hx2
        · exact hbound x hx2 y hy2

theorem bubble_sort_perm (h : Nat → Int) (l : List Nat) :
    (bubble_sort h l).Perm l := by
  rw [bubble_sort_eq_passes]
  exact passes_perm h _ l

theorem bubble_sort_filter (h : Nat → Int) (v : Int) (l : List Nat) :
    (bubble_sort h l).filter (fun x => h x == v) =
      l.filter (fun x => h x == v) := by
  rw [bubble_sort_eq_passes]
  exact passes_filter h v _ l

theorem bubble_sort_sorted (h : Nat → Int) (l : List Nat) :
    List.Pairwise (fun a b => h b ≤ h a) (bubble_sort h l) := by
  rw [bubble_sort_eq_passes]
  cases l with
  | nil => exact List.Pairwise.nil
  | cons a t =>
      apply passes_sorted
      · simp
      · have he : ((a :: t).length - 1 + 1) = (a :: t).length := by
          simp
        rw [he, List.drop_length]
        exact List.Pairwise.nil
      · intro x hx y hy
        have he : ((a :: t).length - 1 + 1) = (a :: t).length := by
          simp
        rw [he, List.drop_length] at hy
        cases hy

/-- C7: the glyph order `bubble_sort (heightKey temps) (range n)` computed
by phase 2 before packing is a permutation of the glyph indices
`0, ..., n-1`, sorted by bitmap height in descending order, and the sort is
stable: for every height value `v`, the subsequence of indices of height
`v` equals the corresponding subsequence of `range n`, i.e. glyphs of equal
height keep their original (ascending) charset order. -/
theorem C7_glyph_order_sorted_stable (temps : List temp_glyph_t) (n : Nat) :
    (bubble_sort (heightKey temps) (List.range n)).Perm (List.range n) ∧
    List.Pairwise (fun a b => heightKey temps b ≤ heightKey temps a)
      (bubble_sort (heightKey temps) (List.range n)) ∧
    (∀ v : Int, (bubble_sort (heightKey temps) (List.range n)).filter
        (fun i => heightKey temps i == v) =
      (List.range n).filter (fun i => heightKey temps i == v)) :=
  ⟨bubble_sort_perm _ _, bubble_sort_sorted _ _, fun v => bubble_sort_filter _ v _⟩

/-! ### Termination of the grow-and-restart packing loop (claim C5) -/

theorem foldl_max_height_le (l : List temp_glyph_t) :
    ∀ acc : Int, acc ≤ l.foldl (fun a t => max a t.height) acc := by
  induction l with
  | nil => intro acc; exact le_refl acc
  | cons t rest ih =>
      intro acc
      exact le_trans (le_max_left acc t.height) (ih (max acc t.height))

theorem foldl_max_height_mem (l : List temp_glyph_t) :
    ∀ (acc : Int) (t : temp_glyph_t), t ∈ l →
      t.height ≤ l.foldl (fun a t => max a t.height) acc := by
  induction l with
  | nil => intro acc t ht; cases ht
  | cons u rest ih =>
      intro acc t ht
      rcases List.mem_cons.mp ht with rfl | ht2
      · exact le_trans (le_max_right acc t.height) (foldl_max_height_le rest _)
      · exact ih _ t ht2

theorem max_temp_height_nonneg (temps : List temp_glyph_t) :
    0 ≤ max_temp_height temps := foldl_max_height_le temps 0

/-- A glyph the packing loop actually places (non-NULL bitmap) is a real
element of the temp array, so its height is bounded by the maximum. -/
theorem tempGet_height_le (temps : List temp_glyph_t) (i : Nat)
    (hp : (tempGet temps i).present = true) :
    (tempGet temps i).height ≤ max_temp_height temps := by
  by_cases hi : i < temps.length
  · apply foldl_max_height_mem
    rw [tempGet, List.getD_eq_getElem _ _ hi]
    exact List.getElem_mem hi
  · exfalso
    rw [tempGet, List.getD_eq_default _ _ (by omega)] at hp
    simp [tempZero] at hp

/-- The pen-height invariant: a packing pass never fails the vertical fit
test while `pen_y + row_height` stays far enough below the atlas height;
each remaining glyph can raise `pen_y + row_height` by at most
`max_height + padding`. -/
theorem pack_pass_isSome (temps : List temp_glyph_t) (W H : Int) :
    ∀ (order : List Nat) (st : pack_state),
      0 ≤ st.row_height →
      st.row_height ≤ max_temp_height temps →
      0 ≤ st.pen_y →
      st.pen_y + st.row_height +
          (order.length : Int) * (max_temp_height temps + padding) +
          max_temp_height temps + padding ≤ H →
      (pack_pass temps W H order st).isSome = true := by
  intro order
  induction order with
  | nil =>
      intro st _ _ _ _
      rw [pack_pass]
      rfl
  | cons i rest ih =>
      intro st h1 h2 h3 h4
      have hpad : padding = 4 := rfl
      have hM : 0 ≤ max_temp_height temps := max_temp_height_nonneg temps
      have hexpand : (((i :: rest).length : Nat) : Int) *
          (max_temp_height temps + padding) =
          (rest.length : Int) * (max_temp_height temps + padding) +
          (max_temp_height temps + padding) := by
        push_cast [List.length_cons]
        ring
      have hd : 0 ≤ (rest.length : Int) * (max_temp_height temps + padding) :=
        mul_nonneg (Int.natCast_nonneg _) (by omega)
      rw [pack_pass]
      by_cases hskip : ¬(tempGet temps i).present = true ∨ (tempGet temps i).width = 0
      · rw [if_pos hskip]
        apply ih
        · exact h1
        · exact h2
        · exact h3
        · show st.pen_y + st.row_height +
            (rest.length : Int) * (max_temp_height temps + padding) +
            max_temp_height temps + padding ≤ H
          rw [hexpand] at h4
          omega
      · rw [if_neg hskip]
        push_neg at hskip
        have hth : (tempGet temps i).height ≤ max_temp_height temps :=
          tempGet_height_le temps i hskip.1
        dsimp only
        by_cases hbreak : W < st.pen_x + (tempGet temps i).width + padding
        · rw [if_pos hbreak]
          dsimp only
          rw [hexpand] at h4
          rw [if_neg (by omega :
            ¬ H < st.pen_y + st.row_height + padding +
                (tempGet temps i).height + padding)]
          have hmax2 : max 0 (tempGet temps i).height ≤ max_temp_height temps :=
            max_le hM hth
          have hmax3 : 0 ≤ max 0 (tempGet temps i).height := le_max_left 0 _
          apply ih
          · exact hmax3
          · exact hmax2
          · show 0 ≤ st.pen_y + st.row_height + padding
            omega
          · show st.pen_y + st.row_height + padding +
              max 0 (tempGet temps i).height +
              (rest.length : Int) * (max_temp_height temps + padding) +
              max_temp_height temps + padding ≤ H
            omega
        · rw [if_neg hbreak]
          rw [hexpand] at h4
          rw [if_neg (by omega :
            ¬ H < st.pen_y + (tempGet temps i).height + padding)]
          have hmax2 : max st.row_height (tempGet temps i).height ≤
              max_temp_height temps := max_le h2 hth
          have hmax3 : 0 ≤ max st.row_height (tempGet temps i).height :=
            le_trans h1 (le_max_left _ _)
          apply ih
          · exact hmax3
          · exact hmax2
          · show 0 ≤ st.pen_y
            omega
          · show st.pen_y + max st.row_height (tempGet temps i).height +
              (rest.length : Int) * (max_temp_height temps + padding) +
              max_temp_height temps + padding ≤ H
            omega

/-- The height bound above which one packing attempt is guaranteed to
succeed. -/
def needed_height (temps : List temp_glyph_t) (order : List Nat) : Int :=
  padding + (order.length : Int) * (max_temp_height temps + padding) +
    max_temp_height temps + padding

theorem pack_attempt_isSome (temps : List temp_glyph_t) (order : List Nat)
    (W H : Int) (chars0 : List glyph_atlas_char_t)
    (hH : needed_height temps order ≤ H) :
    (pack_attempt temps order W H chars0).isSome = true := by
  have hpass := pack_pass_isSome temps W H order ⟨padding, padding, 0, [], chars0⟩
    (le_refl 0) (max_temp_height_nonneg temps) (by norm_num [padding])
    (by rw [needed_height] at hH; dsimp only; omega)
  rw [pack_attempt]
  cases hp : pack_pass temps W H order ⟨padding, padding, 0, [], chars0⟩ with
  | none => rw [hp] at hpass; simp at hpass
  | some st => rfl

theorem pack_grow_isSome (temps : List temp_glyph_t) (order : List Nat)
    (chars0 : List glyph_atlas_char_t) :
    ∀ (fuel : Nat) (W H : Int), 1 ≤ H →
      (needed_height temps order).toNat + 1 ≤ H.toNat + (fuel + 1) →
      (pack_grow temps order chars0 (fuel + 1) W H).isSome = true := by
  intro fuel
  induction fuel with
  | zero =>
      intro W H hH hb
      rw [pack_grow]
      have hsome := pack_attempt_isSome temps order W H chars0 (by omega)
      cases hA : pack_attempt temps order W H chars0 with
      | none => rw [hA] at hsome; simp at hsome
      | some cs => rfl
  | succ fuel ih =>
      intro W H hH hb
      rw [pack_grow]
      cases hA : pack_attempt temps order W H chars0 with
      | some cs => rfl
      | none => exact ih (2 * W) (2 * H) (by omega) (by omega)

/-- Every successful result of the grow loop was produced at dimensions
that are the initial ones doubled finitely many times. -/
theorem pack_grow_dims (temps : List temp_glyph_t) (order : List Nat)
    (chars0 : List glyph_atlas_char_t) :
    ∀ (fuel : Nat) (W H : Int) (r : List glyph_atlas_char_t × Int × Int),
      pack_grow temps order chars0 fuel W H = some r →
      ∃ k : Nat, r.2.1 = 2 ^ k * W ∧ r.2.2 = 2 ^ k * H := by
  intro fuel
  induction fuel with
  | zero =>
      intro W H r hr
      rw [pack_grow] at hr
      cases hr
  | succ fuel ih =>
      intro W H r hr
      rw [pack_grow] at hr
      cases hA : pack_attempt temps order W H chars0 with
      | some cs =>
          rw [hA] at hr
          cases hr
          exact ⟨0, by norm_num, by norm_num⟩
      | none =>
          rw [hA] at hr
          obtain ⟨k, hk1, hk2⟩ := ih (2 * W) (2 * H) r hr
          refine ⟨k + 1, ?_, ?_⟩
          · rw [hk1]; ring
          · rw [hk2]; ring

/-- C5: the grow-and-restart loop terminates for every finite glyph set.
With the fuel `glyph_atlas_create` supplies, packing always completes
(whenever the vertical fit test fails the embedding doubles both
dimensions, reallocates and restarts from the first sorted glyph, exactly
as the source does), and the final dimensions are the initial ones doubled
finitely many times. -/
theorem C5_pack_grow_terminates (temps : List temp_glyph_t) (order : List Nat)
    (chars0 : List glyph_atlas_char_t) (W H : Int) (hH : 1 ≤ H) :
    (∃ r, pack_grow temps order chars0 (pack_fuel temps order) W H = some r) ∧
    (∀ (fuel : Nat) (r : List glyph_atlas_char_t × Int × Int),
      pack_grow temps order chars0 fuel W H = some r →
      ∃ k : Nat, r.2.1 = 2 ^ k * W ∧ r.2.2 = 2 ^ k * H) := by
  constructor
  · have hfe : pack_fuel temps order = (needed_height temps order).toNat + 1 := rfl
    have hs := pack_grow_isSome temps order chars0
      (needed_height temps order).toNat W H hH (by omega)
    rw [← hfe] at hs
    exact Option.isSome_iff_exists.mp hs
  · intro fuel r hr
    exact pack_grow_dims temps order chars0 fuel W H r hr

/-- Witness for C5: a single 3x5 glyph packed into a 16x16 atlas. -/
theorem C5_pack_grow_witness :
    ∃ r, pack_grow [⟨true, 3, 5, 0, 0, 0⟩] [0] [charZero]
      (pack_fuel [⟨true, 3, 5, 0, 0, 0⟩] [0]) 16 16 = some r :=
  (C5_pack_grow_terminates [⟨true, 3, 5, 0, 0, 0⟩] [0] [charZero] 16 16
    (by norm_num)).1

end GlyphGL
